import Mathlib

/-!
# Verification of the `asif` IRC client core (`bot/bot.py`)

A shallow embedding of the client's codec, roster model, handler
registries and per-line dispatch, translated from the Python source.
Protocol strings are modelled as `List Char`; Python exceptions are
modelled with `Except PyErr`; Python object identity (for `User`
objects) is modelled by an index into an allocation list.
-/

set_option maxRecDepth 4000

/-- Python-level strings: a list of characters. -/
abbrev Str := List Char

/-- Abbreviation for turning a Lean string literal into a `Str`. -/
def str (s : String) : Str := s.data

/-- The Python exceptions the embedded code can raise. `fuelOut` is not a
Python exception: it signals exhaustion of the explicit recursion fuel used
for the handler-dispatch loop (whose Python original may in principle run
an unbounded iteration when handlers register further handlers); all
theorems below use fuel values large enough that it is never reached. -/
inductive PyErr where
  | valueError
  | indexError
  | keyError
  | typeError
  | attributeError
  | nameError
  | invalidState
  | fuelOut
deriving DecidableEq, Repr

instance {ε α : Type} [DecidableEq ε] [DecidableEq α] : DecidableEq (Except ε α)
  | .error a, .error b =>
    if h : a = b then isTrue (by rw [h]) else isFalse (by simp [h])
  | .error _, .ok _ => isFalse (by simp)
  | .ok _, .error _ => isFalse (by simp)
  | .ok a, .ok b =>
    if h : a = b then isTrue (by rw [h]) else isFalse (by simp [h])

/-! ## Python string primitives -/

/-- `leadEq sep s` is true when `sep` is an initial segment of `s`. -/
def leadEq : Str → Str → Bool
  | [], _ => true
  | _ :: _, [] => false
  | a :: as, b :: bs => a = b && leadEq as bs

/-- Split at the first occurrence of `sep`: Python's `s.split(sep, 1)` in
the case where `sep` occurs in `s` (`none` when it does not occur, in which
case Python returns the one-element list `[s]`). -/
def splitFirst (sep : Str) : Str → Option (Str × Str)
  | [] => if leadEq sep [] then some ([], []) else none
  | c :: cs =>
    if leadEq sep (c :: cs) then some ([], (c :: cs).drop sep.length)
    else (splitFirst sep cs).map (fun p => (c :: p.1, p.2))

/-- Python's substring test `sep in s`. -/
def containsSub (sep s : Str) : Bool := (splitFirst sep s).isSome

/-- Python's `s.partition(sep)`: `(before, sep, after)` at the first
occurrence, or `(s, "", "")` when `sep` does not occur. -/
def partitionOn (sep s : Str) : Str × Str × Str :=
  match splitFirst sep s with
  | some (a, b) => (a, sep, b)
  | none => (s, [], [])

/-- Whether the two-character sequence `" :"` occurs in a string. -/
def hasSpColon : Str → Bool
  | a :: b :: r => (decide (a = ' ') && decide (b = ':')) || hasSpColon (b :: r)
  | _ => false

/-- Python's no-argument `s.split()`: split on runs of whitespace,
dropping empty tokens.  (Structured so that recursion is on the tail,
which lets concrete instances evaluate inside `decide`.) -/
def wsSplit : Str → List Str
  | [] => []
  | c :: cs =>
    if c.isWhitespace then wsSplit cs
    else
      match cs, wsSplit cs with
      | [], _ => [[c]]
      | d :: _, r =>
        if d.isWhitespace then [c] :: r
        else
          match r with
          | t :: ts => (c :: t) :: ts
          | [] => [[c]]

/-- Python's `s.split(" ")` (single-space separator, keeping empty
tokens). -/
def splitSpaceKeep : Str → List Str
  | [] => [[]]
  | c :: cs =>
    if c = ' ' then [] :: splitSpaceKeep cs
    else
      match splitSpaceKeep cs with
      | t :: ts => (c :: t) :: ts
      | [] => [[c]]

/-- Python's `s.strip()`: remove leading and trailing whitespace. -/
def pyStrip (s : Str) : Str :=
  ((s.dropWhile Char.isWhitespace).reverse.dropWhile Char.isWhitespace).reverse

/-- Python's `" ".join(parts)`. -/
def joinSpace : List Str → Str
  | [] => []
  | [a] => a
  | a :: b :: r => a ++ ' ' :: joinSpace (b :: r)

/-- Python truthiness of an optional string: `None` and `""` are falsy. -/
def pyTruthy : Option Str → Bool
  | none => false
  | some s => !s.isEmpty

/-! ## The codec (`Client._parsemsg` / `Client._buildmsg`) -/

/-- `Client.IrcMessage`: the decoded form of one protocol line. -/
structure IrcMessage where
  pfx : Option Str
  args : List Str
  rest : Option Str
deriving DecidableEq, Repr

/-- `Client._parsemsg`.  Python source:
```
if not msg: return
prefix = None; rest = None
if msg[0] == ":":
    prefix, msg = msg[1:].split(" ", 1)
if " :" in msg:
    msg, rest = msg.split(" :", 1)
    args = msg.split()
else:
    args = msg.split()
return self.IrcMessage(prefix, tuple(args), rest)
```
The two-element unpacking of `msg[1:].split(" ", 1)` raises `ValueError`
when the slice contains no space. -/
def parsemsg (msg : Str) : Except PyErr (Option IrcMessage) :=
  if msg = [] then .ok none
  else
    match (if msg.head? = some ':' then
             match splitFirst [' '] (msg.drop 1) with
             | some (p, m2) => Except.ok ((some p : Option Str), m2)
             | none => Except.error PyErr.valueError
           else Except.ok ((none : Option Str), msg)) with
    | .error e => .error e
    | .ok (px, m2) =>
      match splitFirst [' ', ':'] m2 with
      | some (m3, r) => .ok (some ⟨px, wsSplit m3, some r⟩)
      | none => .ok (some ⟨px, wsSplit m2, none⟩)

/-- `Client._buildmsg`.  Python source:
```
msg = ""
if prefix: msg += ":{} ".format(prefix)
msg += " ".join((str(arg) for arg in args))
if rest: msg += " :{}".format(rest)
return msg
```
`if prefix:` / `if rest:` skip both `None` and the empty string. -/
def buildmsg (args : List Str) (px rest : Option Str) : Str :=
  (match px with
   | some p => if p.isEmpty then [] else ':' :: (p ++ [' '])
   | none => []) ++
  joinSpace args ++
  (match rest with
   | some r => if r.isEmpty then [] else ' ' :: ':' :: r
   | none => [])

/-- Validity of a parameter for the exact round-trip: nonempty, free of
whitespace, and not beginning with the trailing-introducer character. -/
def OkParam (a : Str) : Prop :=
  a ≠ [] ∧ (∀ c ∈ a, ¬ c.isWhitespace) ∧ a.head? ≠ some ':'

instance (a : Str) : Decidable (OkParam a) := by
  unfold OkParam
  infer_instance

/-! ## Protocol constants (from `asif/command_codes.py`) -/

def ccPING : Str := str "PING"
def ccPONG : Str := str "PONG"
def ccPRIVMSG : Str := str "PRIVMSG"
def ccNOTICE : Str := str "NOTICE"
def ccJOIN : Str := str "JOIN"
def ccPART : Str := str "PART"
def ccQUIT : Str := str "QUIT"
def ccNICK : Str := str "NICK"
def ccNAMREPLY : Str := str "353"
def ccENDOFNAMES : Str := str "366"

/-! ## Roster entities -/

/-- A `User` object's mutable fields.  Object identity is the index of the
object in `ClientState.users` (objects are only ever allocated, never
freed, so indices stay valid). -/
structure UserD where
  name : Str
  hostmask : Option Str
deriving DecidableEq, Repr

def noUser : UserD := ⟨[], none⟩

/-- The current `name` of the user object `uid`. -/
def heapName (users : List UserD) (uid : Nat) : Str := (users.getD uid noUser).name

/-- One entry of a CPython `set` of `User`s (`Channel.users`).  CPython
stores each element together with the hash it had at insertion time, and a
lookup compares the probe's hash against that stored hash before calling
`__eq__`; `User.__hash__` is `hash(self.name)`.  The stored hash is
modelled by the insertion-time name itself (hash collisions between
distinct nicks are ignored); `uid` is the stored object. -/
structure SetEntry where
  key : Str
  uid : Nat
deriving DecidableEq, Repr

/-- A `Channel` object: its immutable name and its `users` set.  Channels
are never renamed, so the channel object is identified with its name. -/
structure ChannelD where
  name : Str
  users : List SetEntry
deriving DecidableEq, Repr

/-- CPython set lookup of the `User` object `uid`: an entry is found when
its stored hash equals the probe's current hash and the entry is the same
object (`is`) or name-equal (`User.__eq__`). -/
def pySetMem (users : List UserD) (es : List SetEntry) (uid : Nat) : Bool :=
  es.any (fun e => decide (e.key = heapName users uid) &&
    (decide (e.uid = uid) || decide (heapName users e.uid = heapName users uid)))

/-- CPython `set.add(u)` for the `User` object `uid`: no-op when found,
otherwise a new entry is stored under the probe's current hash. -/
def pySetAdd (users : List UserD) (es : List SetEntry) (uid : Nat) : List SetEntry :=
  if pySetMem users es uid then es else es ++ [⟨heapName users uid, uid⟩]

def pySetErase (users : List UserD) (es : List SetEntry) (uid : Nat) : List SetEntry :=
  es.eraseP (fun e => decide (e.key = heapName users uid) &&
    (decide (e.uid = uid) || decide (heapName users e.uid = heapName users uid)))

/-- CPython `set.remove(u)`: `KeyError` when the element is not found. -/
def pySetRemove (users : List UserD) (es : List SetEntry) (uid : Nat) :
    Except PyErr (List SetEntry) :=
  if pySetMem users es uid then .ok (pySetErase users es uid) else .error .keyError

/-- CPython `set.discard(u)`: like `remove` but silent when absent. -/
def pySetDiscard (users : List UserD) (es : List SetEntry) (uid : Nat) : List SetEntry :=
  if pySetMem users es uid then pySetErase users es uid else es

/-- `Channel.__contains__` probed with a freshly constructed `User(n)`: the
probe is a distinct object, so only stored-hash plus name-equality can
match. -/
def pySetMemName (users : List UserD) (es : List SetEntry) (n : Str) : Bool :=
  es.any (fun e => decide (e.key = n) && decide (heapName users e.uid = n))

/-! ## Handler registries -/

/-- Identity of a command-handler function: the four bound methods
registered in `Client.__init__`, plus the `gather_nicks` / `join_finished`
closures created by `_on_join` (closure identity is modelled by the
captured channel name; no scenario below creates two closures for the same
channel). -/
inductive CmdFn where
  | onJoin
  | onQuit
  | onPart
  | onNick
  | gatherNicks (chan : Str)
  | joinFinished (chan : Str)
deriving DecidableEq, Repr

/-- The `Client.CommandHandler` namedtuple `(args, rest, handler)`. -/
structure CmdHandler where
  args : List Str
  rest : Option Str
  fn : CmdFn
deriving DecidableEq, Repr

/-- One `Client.on_message` registration.  Only the string-literal filter
forms and the notice flag are modelled (the regex, `User`/`Channel`-object
and custom-matcher forms are not needed by the claims); `tag` is the
identity of the handler function. -/
structure MsgHandler where
  message : Option Str
  channel : Option Str
  sender : Option Str
  notice : Option Bool
  tag : Nat
deriving DecidableEq, Repr

/-- The `Client.JoinHandler` namedtuple `(channel, handler)`. -/
structure JoinHandler where
  channel : Option Str
  tag : Nat
deriving DecidableEq, Repr

inductive RecipientD where
  | user (u : UserD)
  | chan (name : Str)
deriving DecidableEq, Repr

/-- A decoded chat `Message(sender, recipient, text, notice)`.  `sender` is
a snapshot of the `User` record, or `none` for a server-origin message;
matcher evaluation happens immediately after construction, so the snapshot
is faithful. -/
structure MessageD where
  sender : Option UserD
  recipient : RecipientD
  text : Option Str
  notice : Bool
deriving DecidableEq, Repr

/-- Observable effects of processing one line. -/
inductive Ev where
  /-- a `Client._send(*args, prefix=?, rest=?)` call -/
  | sent (args : List Str) (px : Option Str) (rest : Option Str)
  /-- a synchronous command-handler invocation -/
  | cmdInvoked (fn : CmdFn)
  /-- a message handler spawned as a background task (`_bg`) -/
  | bgMsg (tag : Nat)
  /-- a join handler spawned as a background task (`_bg`) -/
  | bgJoin (chan : Str) (tag : Nat)
deriving DecidableEq, Repr

/-- The mutable state of a `Client`. -/
structure ClientState where
  nick : Str
  /-- every `User` object ever created, indexed by identity -/
  users : List UserD
  /-- the `Client._users` dict: nick → user object -/
  userIndex : List (Str × Nat)
  /-- the `Client._channels` dict: name → channel object -/
  channels : List (Str × ChannelD)
  cmdHandlers : List CmdHandler
  msgHandlers : List MsgHandler
  joinHandlers : List JoinHandler
  connected : Bool
  channelTypes : Str
  /-- the `Client._prefix_map` dict: prefix char → mode string -/
  prefixMap : List (Char × Str)
deriving DecidableEq, Repr

/-! ## Python dict operations (insertion-ordered association list) -/

def dictGet {α : Type} (d : List (Str × α)) (k : Str) : Option α :=
  match d.find? (fun e => decide (e.1 = k)) with
  | some e => some e.2
  | none => none

def dictSet {α : Type} (d : List (Str × α)) (k : Str) (v : α) : List (Str × α) :=
  match d with
  | [] => [(k, v)]
  | e :: es => if e.1 = k then (k, v) :: es else e :: dictSet es k v

/-- `del d[k]`: raises `KeyError` when the key is absent. -/
def dictDel {α : Type} (d : List (Str × α)) (k : Str) :
    Except PyErr (List (Str × α)) :=
  match d with
  | [] => .error .keyError
  | e :: es =>
    if e.1 = k then .ok es
    else
      match dictDel es k with
      | .error err => .error err
      | .ok es' => .ok (e :: es')

/-! ## Roster operations -/

/-- `Client.get_user`.  Python source:
```
hostmask = None
if "!" in nick:
    nick, _, hostmask = nick.partition("!")
user = self._users.get(nick)
if not user:
    self._users[nick] = user = User(nick, self, hostmask=hostmask)
elif not user.hostmask:
    user.hostmask = hostmask
return user
```
-/
def getUser (s : ClientState) (nickArg : Str) : ClientState × Nat :=
  let nh : Str × Option Str :=
    if containsSub ['!'] nickArg then
      ((partitionOn ['!'] nickArg).1, some (partitionOn ['!'] nickArg).2.2)
    else (nickArg, none)
  match dictGet s.userIndex nh.1 with
  | none =>
    let uid := s.users.length
    ({ s with users := s.users ++ [⟨nh.1, nh.2⟩],
              userIndex := dictSet s.userIndex nh.1 uid }, uid)
  | some uid =>
    let u := s.users.getD uid noUser
    if pyTruthy u.hostmask then (s, uid)
    else ({ s with users := s.users.set uid { u with hostmask := nh.2 } }, uid)

/-- `Client.get_channel` (get-or-create; the channel object is identified
by its name). -/
def getChannel (s : ClientState) (name : Str) : ClientState :=
  match dictGet s.channels name with
  | some _ => s
  | none => { s with channels := dictSet s.channels name ⟨name, []⟩ }

/-- Mutate the channel object `name` in place.  The `_on_join` closures
hold the object itself, which is the same object as the `_channels` entry
(channels are created only by `get_channel` and never removed), so an
in-place mutation is an update of the dict entry. -/
def updateChannel (s : ClientState) (name : Str) (f : ChannelD → ChannelD) :
    ClientState :=
  { s with channels := s.channels.map (fun e => if e.1 = name then (e.1, f e.2) else e) }

/-- `Client._resolve_sender`: a sender `User` only when the prefix contains
both `"!"` and `"@"`; `"!" in None` raises `TypeError`. -/
def resolveSender (s : ClientState) (px : Option Str) :
    Except PyErr (ClientState × Option Nat) :=
  match px with
  | none => .error .typeError
  | some p =>
    if containsSub ['!'] p && containsSub ['@'] p then
      let su := getUser s p
      .ok (su.1, some su.2)
    else .ok (s, none)

/-- `Client._resolve_recipient`: dispatch on the first character
(`recipient[0]` raises `IndexError` on an empty token). -/
def resolveRecipient (s : ClientState) (tok : Str) :
    Except PyErr (ClientState × RecipientD) :=
  match tok with
  | [] => .error .indexError
  | c :: _ =>
    if c ∈ s.channelTypes then
      .ok (getChannel s tok, RecipientD.chan tok)
    else
      let su := getUser s tok
      .ok (su.1, RecipientD.user (su.1.users.getD su.2 noUser))

/-! ## Command-handler registry operations -/

/-- One pass of `Client.remove_command_handler`.  Python source:
```
for ch in self._on_command_handlers:
    if ch.handler == handler:
        self._on_command_handlers.remove(ch)
```
CPython's list iterator walks the live list by index while `remove`
shifts later elements left, so the element following each removed entry is
skipped.  `i` is the iterator index; the fuel (always sufficient, since
`i` grows while the list only shrinks) keeps the recursion structural. -/
def removeCmdLoop (fn : CmdFn) : Nat → List CmdHandler → Nat → List CmdHandler
  | 0, hs, _ => hs
  | fuel + 1, hs, i =>
    if i < hs.length then
      let ch := hs.getD i ⟨[], none, .onJoin⟩
      if ch.fn = fn then
        removeCmdLoop fn fuel (hs.eraseP (fun x => decide (x = ch))) (i + 1)
      else removeCmdLoop fn fuel hs (i + 1)
    else hs

/-- `Client.remove_command_handler`. -/
def removeCommandHandler (hs : List CmdHandler) (fn : CmdFn) : List CmdHandler :=
  removeCmdLoop fn (hs.length + 1) hs 0

/-! ## The built-in command handlers -/

/-- `Client._on_join`.  For a foreign join, record the user as a member;
for our own join, register the three `gather_nicks` patterns (decorators
apply bottom-up: `"@"`, then `"*"`, then `"="`) and `join_finished`. -/
def execOnJoin (s : ClientState) (msg : IrcMessage) :
    Except PyErr (ClientState × List Ev) :=
  match msg.rest with
  | none => .error .typeError
    -- the source would call `get_channel(None)`; no claim sends a JOIN
    -- without a trailing, so this arm is modelled as an error
  | some chanName =>
    let s := getChannel s chanName
    match msg.pfx with
    | none => .error .typeError  -- `"!" in None` raises
    | some pfx =>
      let su := getUser s pfx
      let s := su.1
      let uid := su.2
      if heapName s.users uid ≠ s.nick then
        .ok (updateChannel s chanName
          (fun ch => { ch with users := pySetAdd s.users ch.users uid }), [])
      else
        .ok ({ s with cmdHandlers := s.cmdHandlers ++
          [⟨[ccNAMREPLY, s.nick, str "@", chanName], none, .gatherNicks chanName⟩,
           ⟨[ccNAMREPLY, s.nick, str "*", chanName], none, .gatherNicks chanName⟩,
           ⟨[ccNAMREPLY, s.nick, str "=", chanName], none, .gatherNicks chanName⟩,
           ⟨[ccENDOFNAMES, s.nick, chanName], none, .joinFinished chanName⟩] }, [])

/-- One token of the `gather_nicks` loop: strip a truthy membership-prefix
character via `_prefix_map`, resolve the user, add it to the channel's
member set.  `nick[0]` raises `IndexError` on an empty token. -/
def gatherOne (s : ClientState) (chan : Str) (tok : Str) :
    Except PyErr ClientState :=
  match tok with
  | [] => .error .indexError
  | c :: _ =>
    let mode : Option Str :=
      match s.prefixMap.find? (fun e => decide (e.1 = c)) with
      | some e => some e.2
      | none => none
    let nick := if pyTruthy mode then tok.drop 1 else tok
    let su := getUser s nick
    .ok (updateChannel su.1 chan
      (fun ch => { ch with users := pySetAdd su.1.users ch.users su.2 }))

def gatherLoop (chan : Str) : ClientState → List Str → Except PyErr ClientState
  | s, [] => .ok s
  | s, t :: ts =>
    match gatherOne s chan t with
    | .error e => .error e
    | .ok s' => gatherLoop chan s' ts

/-- The `gather_nicks` closure: `for nick in msg.rest.strip().split(" ")`
(`None.strip()` raises `AttributeError`). -/
def execGatherNicks (s : ClientState) (chan : Str) (msg : IrcMessage) :
    Except PyErr (ClientState × List Ev) :=
  match msg.rest with
  | none => .error .attributeError
  | some rest =>
    match gatherLoop chan s (splitSpaceKeep (pyStrip rest)) with
    | .error e => .error e
    | .ok s' => .ok (s', [])

/-- The `join_finished` closure: deregister `gather_nicks` and itself, then
spawn every join handler whose channel is falsy or equals this channel. -/
def execJoinFinished (s : ClientState) (chan : Str) : ClientState × List Ev :=
  let s := { s with cmdHandlers := removeCommandHandler s.cmdHandlers (.gatherNicks chan) }
  let s := { s with cmdHandlers := removeCommandHandler s.cmdHandlers (.joinFinished chan) }
  (s, s.joinHandlers.filterMap (fun jh =>
    if !(pyTruthy jh.channel) || decide (jh.channel = some chan) then
      some (Ev.bgJoin chan jh.tag)
    else none))

/-- `Client._on_quit`: discard the user from every channel's member set
and delete it from the `_users` index. -/
def execOnQuit (s : ClientState) (msg : IrcMessage) :
    Except PyErr (ClientState × List Ev) :=
  match msg.pfx with
  | none => .error .typeError
  | some pfx =>
    let su := getUser s pfx
    let s := su.1
    let uid := su.2
    let newChans := s.channels.map
      (fun e => (e.1, { e.2 with users := pySetDiscard s.users e.2.users uid }))
    let s := { s with channels := newChans }
    match dictDel s.userIndex (heapName s.users uid) with
    | .error e => .error e
    | .ok d => .ok ({ s with userIndex := d }, [])

/-- `Client._on_part`: `channel.users.remove(user)` — `KeyError` when the
user is not a member. -/
def execOnPart (s : ClientState) (msg : IrcMessage) :
    Except PyErr (ClientState × List Ev) :=
  match msg.pfx with
  | none => .error .typeError
  | some pfx =>
    let su := getUser s pfx
    let s := su.1
    let uid := su.2
    match msg.args.drop 1 with
    | [] => .error .indexError  -- msg.args[1]
    | chanName :: _ =>
      let s := getChannel s chanName
      match dictGet s.channels chanName with
      | none => .error .keyError  -- unreachable: get_channel just created it
      | some ch =>
        match pySetRemove s.users ch.users uid with
        | .error e => .error e
        | .ok es => .ok (updateChannel s chanName (fun c => { c with users := es }), [])

/-- `Client._on_nick`: rebuild the `_users` index under the new nick and
rename the user object in place (channel member sets are not touched). -/
def execOnNick (s : ClientState) (msg : IrcMessage) :
    Except PyErr (ClientState × List Ev) :=
  match msg.pfx with
  | none => .error .typeError
  | some pfx =>
    let su := getUser s pfx
    let s := su.1
    let uid := su.2
    let old := heapName s.users uid
    match dictDel s.userIndex old with
    | .error e => .error e
    | .ok d =>
      let s := { s with userIndex := d }
      match msg.rest with
      | none => .error .typeError
        -- the source would set `user.name = None`; names are strings in
        -- this embedding and no claim exercises a NICK without a trailing
      | some newNick =>
        let u := s.users.getD uid noUser
        let s := { s with users := s.users.set uid { u with name := newNick } }
        let s := if old = s.nick then { s with nick := newNick } else s
        .ok ({ s with userIndex := dictSet s.userIndex newNick uid }, [])

def execCmdFn (s : ClientState) (fn : CmdFn) (msg : IrcMessage) :
    Except PyErr (ClientState × List Ev) :=
  match fn with
  | .onJoin => execOnJoin s msg
  | .onQuit => execOnQuit s msg
  | .onPart => execOnPart s msg
  | .onNick => execOnNick s msg
  | .gatherNicks chan => execGatherNicks s chan msg
  | .joinFinished chan => .ok (execJoinFinished s chan)

/-! ## The dispatch loop -/

/-- The matching test of `Client.run`:
`ch.args == msg.args[:len(ch.args)] and (not ch.rest or ch.rest == msg.rest)`. -/
def cmdMatches (ch : CmdHandler) (msg : IrcMessage) : Bool :=
  decide (ch.args = msg.args.take ch.args.length) &&
  (!(pyTruthy ch.rest) || decide (ch.rest = msg.rest))

/-- The `for ch in self._on_command_handlers:` loop of `Client.run`:
CPython iterates the live list by index, so entries appended by a handler
are visited for the same line and removals shift later entries under the
iterator.  Matching handlers run synchronously; their exceptions propagate
and tear the loop down. -/
def dispatchCmds (msg : IrcMessage) :
    Nat → ClientState → Nat → Except PyErr (ClientState × List Ev)
  | 0, _, _ => .error .fuelOut
  | fuel + 1, s, i =>
    if i < s.cmdHandlers.length then
      let ch := s.cmdHandlers.getD i ⟨[], none, .onJoin⟩
      if cmdMatches ch msg then
        match execCmdFn s ch.fn msg with
        | .error e => .error e
        | .ok (s', evs) =>
          match dispatchCmds msg fuel s' (i + 1) with
          | .error e => .error e
          | .ok (s'', evs') => .ok (s'', (Ev.cmdInvoked ch.fn :: evs) ++ evs')
      else dispatchCmds msg fuel s (i + 1)
    else .ok (s, [])

/-- The channel filter (string form):
`isinstance(msg.recipient, Channel) and msg.recipient.name == channel`. -/
def chanFilterOk (mh : MsgHandler) (m : MessageD) : Bool :=
  match mh.channel with
  | none => true
  | some cn =>
    match m.recipient with
    | .chan n => decide (n = cn)
    | .user _ => false

/-- The `message_matcher` conjunction built by `Client.on_message` for the
modelled filter forms, evaluated in registration order: notice flag, text
literal, sender string, channel string.  The string sender filter reads
`msg.sender.name`, which raises `AttributeError` when `msg.sender` is
`None` (server-origin message). -/
def runMatchers (mh : MsgHandler) (m : MessageD) : Except PyErr Bool :=
  if (match mh.notice with
      | some b => decide (m.notice ≠ b)
      | none => false) then .ok false
  else if (match mh.message with
           | some t => decide (m.text ≠ some t)
           | none => false) then .ok false
  else
    match mh.sender with
    | some sn =>
      match m.sender with
      | none => .error .attributeError
      | some u => if u.name ≠ sn then .ok false else .ok (chanFilterOk mh m)
    | none => .ok (chanFilterOk mh m)

/-- `Client._handle_on_message`: evaluate each registered matcher in order,
synchronously, inside the dispatch loop; spawn a background task for every
success.  Only the handler body runs inside the `_bg` error boundary — a
matcher exception propagates out of the loop. -/
def handleOnMessage (m : MessageD) : List MsgHandler → Except PyErr (List Ev)
  | [] => .ok []
  | mh :: hs =>
    match runMatchers mh m with
    | .error e => .error e
    | .ok true =>
      match handleOnMessage m hs with
      | .error e => .error e
      | .ok evs => .ok (Ev.bgMsg mh.tag :: evs)
    | .ok false => handleOnMessage m hs

/-- One iteration of `Client.run` on a decoded line: `_get_message`
(decode + keepalive special-case), the synchronous command-handler loop,
the `_connected` gate, and chat-message delivery.  `Except.error` models
an exception propagating out of the read loop, tearing it down. -/
def processLine (fuel : Nat) (s : ClientState) (line : Str) :
    Except PyErr (ClientState × List Ev) :=
  match parsemsg line with
  | .error e => .error e
  | .ok none => .ok (s, [])
  | .ok (some msg) =>
    match msg.args with
    | [] => .error .indexError  -- `_handle_special` evaluates msg.args[0]
    | cmd :: _ =>
      if cmd = ccPING then .ok (s, [Ev.sent [ccPONG] none msg.rest])
      else
        match dispatchCmds msg fuel s 0 with
        | .error e => .error e
        | .ok (s, evs) =>
          if !s.connected then .ok (s, evs)
          else if cmd = ccPRIVMSG ∨ cmd = ccNOTICE then
            match resolveSender s msg.pfx with
            | .error e => .error e
            | .ok (s, senderUid) =>
              match msg.args.drop 1 with
              | [] => .error .indexError  -- msg.args[1]
              | tok :: _ =>
                match resolveRecipient s tok with
                | .error e => .error e
                | .ok (s, rcpt) =>
                  let m : MessageD :=
                    ⟨senderUid.map (fun uid => s.users.getD uid noUser),
                     rcpt, msg.rest, decide (cmd = ccNOTICE)⟩
                  match handleOnMessage m s.msgHandlers with
                  | .error e => .error e
                  | .ok evs2 => .ok (s, evs ++ evs2)
          else .ok (s, evs)

/-- Process a sequence of incoming lines, stopping at the first propagated
exception. -/
def runLines (fuel : Nat) : ClientState → List Str → Except PyErr (ClientState × List Ev)
  | s, [] => .ok (s, [])
  | s, l :: ls =>
    match processLine fuel s l with
    | .error e => .error e
    | .ok (s', evs) =>
      match runLines fuel s' ls with
      | .error e => .error e
      | .ok (s'', evs') => .ok (s'', evs ++ evs')

/-- The command-handler registry right after `Client.__init__`: the JOIN,
QUIT, PART, NICK handlers, in registration order. -/
def initCmdHandlers : List CmdHandler :=
  [⟨[ccJOIN], none, .onJoin⟩, ⟨[ccQUIT], none, .onQuit⟩,
   ⟨[ccPART], none, .onPart⟩, ⟨[ccNICK], none, .onNick⟩]

/-- A client in the `Connected` steady state with the given nick, empty
roster and default feature tables (the temporary handshake handlers of
`_connect` have already been removed). -/
def mkClient (nick : Str) : ClientState :=
  { nick := nick, users := [], userIndex := [], channels := [],
    cmdHandlers := initCmdHandlers, msgHandlers := [], joinHandlers := [],
    connected := true, channelTypes := str "#&",
    prefixMap := [('@', str "o"), ('+', str "v")] }

/-! ## Concrete scenarios used by the claims -/

/-- C2 start state: the user `alice` (object 0) is a member of `#x`. -/
def c2Start : ClientState :=
  { mkClient (str "me") with
    users := [⟨str "alice", none⟩],
    userIndex := [(str "alice", 0)],
    channels := [(str "#x", ⟨str "#x", [⟨str "alice", 0⟩]⟩)] }

def c2Line : Str := str ":alice!uu@hh NICK :alicia"

/-- The state after processing the nick-change line. -/
def c2After : ClientState :=
  match processLine 8 c2Start c2Line with
  | .ok p => p.1
  | .error _ => c2Start

/-- The member set of `#x` in `c2After`. -/
def c2Members : List SetEntry :=
  match dictGet c2After.channels (str "#x") with
  | some ch => ch.users
  | none => []

/-- C3 scenario: the client joins `#x`, receives one name-list reply and
the end-of-names reply. -/
def c3Start : ClientState := mkClient (str "me")
def c3L1 : Str := str ":me!u@h JOIN :#x"
def c3L2 : Str := str ":srv 353 me = #x :nick1 @nick2 +nick3"
def c3L3 : Str := str ":srv 366 me #x :End of /NAMES list."
/-- A later name-list reply for `#x` under the `"*"` visibility marker. -/
def c3L4 : Str := str ":srv 353 me * #x :ghost"

def c3After : ClientState :=
  match runLines 16 c3Start [c3L1, c3L2, c3L3] with
  | .ok p => p.1
  | .error _ => c3Start

def c3Members : List SetEntry :=
  match dictGet c3After.channels (str "#x") with
  | some ch => ch.users
  | none => []

/-- The state after the stray later `"*"` name-list reply. -/
def c3Ghost : ClientState :=
  match processLine 16 c3After c3L4 with
  | .ok p => p.1
  | .error _ => c3After

def c3GhostMembers : List SetEntry :=
  match dictGet c3Ghost.channels (str "#x") with
  | some ch => ch.users
  | none => []

/-- C7: state after the first resolution `resolve-user("a!u@h")`. -/
def c7s1 : ClientState := (getUser (mkClient (str "me")) (str "a!u@h")).1

/-- C10: a connected client with one message handler carrying a string
sender filter `sn` (all other filters absent). -/
def c10State (sn : Str) (tag : Nat) : ClientState :=
  { mkClient (str "me") with
    msgHandlers := [{ message := none, channel := none, sender := some sn,
                      notice := none, tag := tag }] }

/-- C10: a server-origin chat line (the prefix has no `!`/`@`). -/
def c10Line : Str := str ":irc.example.net NOTICE me :hello"

/-- C10: the `Message` the dispatch loop builds for `c10Line`: the resolved
sender is `None`. -/
def c10ServerMsg : MessageD :=
  ⟨none, RecipientD.user ⟨str "me", none⟩, some (str "hello"), true⟩

/-- The name→Channel index never loses a key when going from `s` to `s'`. -/
def ChanPres (s s' : ClientState) : Prop :=
  ∀ n, (dictGet s.channels n).isSome → (dictGet s'.channels n).isSome

/-- C9: a roster with users `a` (object 0) and `b` (object 1); both are
members of channel `c`, and `a` alone is a member of channel `d`. -/
def c9State (a b c d : Str) : ClientState :=
  { mkClient (str "me") with
    users := [⟨a, none⟩, ⟨b, none⟩],
    userIndex := [(a, 0), (b, 1)],
    channels := [(c, ⟨c, [⟨a, 0⟩, ⟨b, 1⟩]⟩), (d, ⟨d, [⟨a, 0⟩]⟩)] }

/-- C9: the local client `me` is the sole member of `#x` (as after a join
whose name list contained only itself). -/
def c9LocalState : ClientState :=
  { mkClient (str "me") with
    users := [⟨str "me", none⟩],
    userIndex := [(str "me", 0)],
    channels := [(str "#x", ⟨str "#x", [⟨str "me", 0⟩]⟩)] }

/-- C9: the local client's own PART echo from the server. -/
def c9LocalLine : Str := str ":me!u@h PART #x :bye"

def c9LocalAfter : ClientState :=
  match processLine 8 c9LocalState c9LocalLine with
  | .ok p => p.1
  | .error _ => c9LocalState

/-! ## C6: `Client.await_command` under the asyncio scheduler -/

/-- The state of the `asyncio.Future` created by `Client.await_command`. -/
inductive FutSt where
  | pending
  | done
  | cancelled
deriving DecidableEq, Repr

/-- The part of the client and event loop relevant to one `await_command`
call.  `registered`: the helper's handler is in `_on_command_handlers`;
`pendingCbs`: done-callbacks queued via `call_soon` — asyncio runs a
future's done-callbacks on a later scheduler pass, never synchronously
inside `set_result`/`cancel`; `captures`: messages captured into the
future. -/
structure AwaitState where
  registered : Bool
  fut : FutSt
  pendingCbs : Nat
  captures : Nat
deriving DecidableEq, Repr

/-- Events driving the model.  `line b`: the dispatch loop processes one
incoming line (`b`: it matches the helper's pattern); lines buffered in the
same socket read are processed back-to-back without suspending, so no
callbacks run between them.  `tick`: a scheduler pass (the loop suspends on
the socket), which drains the `call_soon` queue.  `cancel`: the caller
cancels the future from another task (other tasks only run at scheduler
passes). -/
inductive AwaitEv where
  | line (hit : Bool)
  | tick
  | cancel
deriving DecidableEq, Repr

/-- State right after `await_command` registers its handler. -/
def awaitInit : AwaitState := ⟨true, .pending, 0, 0⟩

/-- One event.  A matching line runs the still-registered handler, whose
body is `fut.set_result(msg)`: on a pending future this resolves it and
queues the removal callback; on a done or cancelled future `set_result`
raises `InvalidStateError`, which propagates out of the synchronous
command-handler loop and tears the dispatch loop down. -/
def awaitStep (s : AwaitState) : AwaitEv → Except PyErr AwaitState
  | .line b =>
    if b && s.registered then
      match s.fut with
      | .pending =>
        .ok { s with fut := .done, captures := s.captures + 1, pendingCbs := s.pendingCbs + 1 }
      | _ => .error .invalidState
    else .ok s
  | .tick =>
    .ok (if s.pendingCbs > 0 then
          { s with registered := false, pendingCbs := 0 }
         else s)
  | .cancel =>
    .ok (match s.fut with
         | .pending => { s with fut := .cancelled, pendingCbs := s.pendingCbs + 1 }
         | _ => s)

def awaitRun : AwaitState → List AwaitEv → Except PyErr AwaitState
  | s, [] => .ok s
  | s, e :: es =>
    match awaitStep s e with
    | .error err => .error err
    | .ok s' => awaitRun s' es

/-- The reachable-state invariant of the `await_command` life cycle. -/
def AwaitInv (s : AwaitState) : Prop :=
  (s.fut = .pending →
    s.registered = true ∧ s.pendingCbs = 0 ∧ s.captures = 0) ∧
  (s.fut ≠ .pending →
    (s.pendingCbs = 1 ∧ s.registered = true) ∨
    (s.pendingCbs = 0 ∧ s.registered = false)) ∧
  s.captures ≤ 1

/-! ## C8: the deferred-binding module proxy -/

/-- The observable registration log of a real `Client` or `Channel`: the
`(method, handler)` pairs its registration decorators received, in call
order. -/
structure RealTarget where
  log : List (Str × Nat)
deriving DecidableEq, Repr

/-- `Module` before/after `_populate`: `attached` models `self.client`
being set, `buffered` models `_buffered_calls` (one entry per deferred
registration call, identified by method name and handler). -/
structure ModuleD where
  attached : Bool
  buffered : List (Str × Nat)
deriving DecidableEq, Repr

def moduleInit : ModuleD := ⟨false, []⟩

/-- The handler-registration method names `Module.__getattr__` accepts. -/
def moduleMethods : List Str :=
  [str "on_connected", str "on_message", str "on_command", str "on_join"]

/-- `Module.__getattr__(method)` followed by the registration call
`module.method(*args)(fn)`.  Any other method name raises
`AttributeError`.  Before attachment the call is buffered as a closure.
After attachment the source executes
`return getattr(self.client, method)(*args, **kwargs)` — but `args` and
`kwargs` are unbound names in `__getattr__`'s scope, so the access raises
`NameError` instead of forwarding to the client. -/
def moduleCall (t : RealTarget) (m : ModuleD) (method : Str) (fn : Nat) :
    Except PyErr (RealTarget × ModuleD) :=
  if ¬ (method ∈ moduleMethods) then .error .attributeError
  else if m.attached then .error .nameError
  else .ok (t, { m with buffered := m.buffered ++ [(method, fn)] })

/-- A bare attribute read on the module (no call yet): same dispatch as
`moduleCall`; in particular any non-handler-registration name signals
`AttributeError` before attachment. -/
def moduleAccess (m : ModuleD) (method : Str) : Except PyErr Unit :=
  if ¬ (method ∈ moduleMethods) then .error .attributeError
  else if m.attached then .error .nameError
  else .ok ()

/-- A sequence of registration calls on the module. -/
def moduleCalls : RealTarget → ModuleD → List (Str × Nat) →
    Except PyErr (RealTarget × ModuleD)
  | t, m, [] => .ok (t, m)
  | t, m, (method, fn) :: rest =>
    match moduleCall t m method fn with
    | .error e => .error e
    | .ok (t', m') => moduleCalls t' m' rest

/-- `Module._populate`: set the client and replay every buffered call, in
original order, against the real client (the buffered closures call
`getattr(self.client, method)`, a real bound method, so replay succeeds;
the buffer itself is not cleared by the source). -/
def modulePopulate (t : RealTarget) (m : ModuleD) : RealTarget × ModuleD :=
  ({ t with log := t.log ++ m.buffered }, { m with attached := true })

/-- `Module.ChannelProxy` before/after `_populate`. -/
structure ProxyD where
  bound : Bool
  buffered : List (Str × Nat)
deriving DecidableEq, Repr

def proxyInit : ProxyD := ⟨false, []⟩

/-- `ChannelProxy.__getattr__` + registration call: after binding, the call
is forwarded live to the real channel (`getattr(self._channel, method)`);
before binding, a non-`on_`-prefixed name raises `AttributeError` and an
`on_*` registration is buffered. -/
def proxyCall (t : RealTarget) (p : ProxyD) (method : Str) (fn : Nat) :
    Except PyErr (RealTarget × ProxyD) :=
  if p.bound then .ok ({ t with log := t.log ++ [(method, fn)] }, p)
  else if ¬ (leadEq (str "on_") method) then .error .attributeError
  else .ok (t, { p with buffered := p.buffered ++ [(method, fn)] })

def proxyCalls : RealTarget → ProxyD → List (Str × Nat) →
    Except PyErr (RealTarget × ProxyD)
  | t, p, [] => .ok (t, p)
  | t, p, (method, fn) :: rest =>
    match proxyCall t p method fn with
    | .error e => .error e
    | .ok (t', p') => proxyCalls t' p' rest

/-- `ChannelProxy._populate`: bind the real channel and replay the
buffered calls in original order. -/
def proxyPopulate (t : RealTarget) (p : ProxyD) : RealTarget × ProxyD :=
  ({ t with log := t.log ++ p.buffered }, { p with bound := true })

/-! ## Round-trip lemmas for the codec -/

example : wsSplit (str "  a bc  d ") = [str "a", str "bc", str "d"] := by decide
example : splitSpaceKeep (str "a  bc") = [str "a", str "", str "bc"] := by decide

example : parsemsg (str ":nick!user@host PRIVMSG #chan :hello world") =
    .ok (some ⟨some (str "nick!user@host"), [str "PRIVMSG", str "#chan"],
               some (str "hello world")⟩) := by decide

example : parsemsg (str "PING :abc") =
    .ok (some ⟨none, [str "PING"], some (str "abc")⟩) := by decide

example : parsemsg (str "") = .ok none := by decide

example : parsemsg (str ":x") = .error .valueError := by decide

example : buildmsg [str "a", str ":b"] none none = str "a :b" := by decide

theorem splitFirst_cons_not_lead {sep : Str} {c : Char} {cs : Str}
    (h : leadEq sep (c :: cs) = false) :
    splitFirst sep (c :: cs) = (splitFirst sep cs).map (fun p => (c :: p.1, p.2)) := by
  simp [splitFirst, h]

theorem splitFirst_space (p t : Str) (hp : ∀ c ∈ p, c ≠ ' ') :
    splitFirst [' '] (p ++ ' ' :: t) = some (p, t) := by
  induction p with
  | nil => simp [splitFirst, leadEq]
  | cons c p' ih =>
    have hc : c ≠ ' ' := hp c (by simp)
    have hlead : leadEq [' '] (c :: (p' ++ ' ' :: t)) = false := by
      simp [leadEq, Ne.symm hc]
    rw [List.cons_append, splitFirst_cons_not_lead hlead,
      ih (fun c hc => hp c (by simp [hc]))]
    rfl

theorem hasSpColon_tail {c : Char} {p : Str} (h : hasSpColon (c :: p) = false) :
    hasSpColon p = false := by
  cases p with
  | nil => rfl
  | cons d r =>
    simp only [hasSpColon, Bool.or_eq_false_iff] at h
    exact h.2

theorem splitFirst_spcolon (p t : Str) (hp : hasSpColon p = false) :
    splitFirst [' ', ':'] (p ++ ' ' :: ':' :: t) = some (p, t) := by
  induction p with
  | nil => simp [splitFirst, leadEq]
  | cons c p' ih =>
    have hlead : leadEq [' ', ':'] (c :: (p' ++ ' ' :: ':' :: t)) = false := by
      by_cases hc : c = ' '
      · subst hc
        cases p' with
        | nil => simp [leadEq]
        | cons d p'' =>
          by_cases hd : d = ':'
          · subst hd
            simp [hasSpColon] at hp
          · simp [leadEq, Ne.symm hd]
      · simp [leadEq, Ne.symm hc]
    rw [List.cons_append, splitFirst_cons_not_lead hlead, ih (hasSpColon_tail hp)]
    rfl

theorem splitFirst_spcolon_none (s : Str) (hs : hasSpColon s = false) :
    splitFirst [' ', ':'] s = none := by
  induction s with
  | nil => simp [splitFirst, leadEq]
  | cons c cs ih =>
    have hlead : leadEq [' ', ':'] (c :: cs) = false := by
      by_cases hc : c = ' '
      · subst hc
        cases cs with
        | nil => simp [leadEq]
        | cons d cs' =>
          by_cases hd : d = ':'
          · subst hd
            simp [hasSpColon] at hs
          · simp [leadEq, Ne.symm hd]
      · simp [leadEq, Ne.symm hc]
    rw [splitFirst_cons_not_lead hlead, ih (hasSpColon_tail hs)]
    rfl

theorem hasSpColon_append (a t : Str) (ha : ∀ c ∈ a, c ≠ ' ') :
    hasSpColon (a ++ t) = hasSpColon t := by
  induction a with
  | nil => rfl
  | cons c a' ih =>
    have hc : (c = ' ') = False := by simp [ha c (by simp)]
    cases a' with
    | nil =>
      cases t with
      | nil => rfl
      | cons d t' => simp [hasSpColon, hc]
    | cons d a'' =>
      simp only [List.cons_append] at ih ⊢
      rw [show hasSpColon (c :: d :: (a'' ++ t)) =
            ((decide (c = ' ') && decide (d = ':')) || hasSpColon (d :: (a'' ++ t))) from rfl]
      simp [hc, ih (fun x hx => ha x (by simp [hx]))]

theorem joinSpace_cons (b : Str) (r : List Str) :
    joinSpace (b :: r) = b ++ (if r.isEmpty then [] else ' ' :: joinSpace r) := by
  cases r with
  | nil => simp [joinSpace]
  | cons c r' => simp [joinSpace]

theorem okParam_no_space {a : Str} (h : OkParam a) : ∀ c ∈ a, c ≠ ' ' := by
  intro c hc he
  exact h.2.1 c hc (he ▸ (by decide))

theorem hasSpColon_joinSpace (args : List Str) (h : ∀ a ∈ args, OkParam a) :
    hasSpColon (joinSpace args) = false := by
  induction args with
  | nil => rfl
  | cons a args' ih =>
    cases args' with
    | nil =>
      simp only [joinSpace]
      rw [show (a : Str) = a ++ [] by simp,
        hasSpColon_append a [] (okParam_no_space (h a (by simp)))]
      rfl
    | cons b r =>
      obtain ⟨hbne, -, hbh⟩ := h b (by simp)
      obtain ⟨hb0, b', rfl⟩ : ∃ c cs, b = c :: cs := by
        cases b with
        | nil => exact absurd rfl hbne
        | cons x xs => exact ⟨x, xs, rfl⟩
      have hbh' : (hb0 = ':') = False := by
        simp only [List.head?_cons, ne_eq, Option.some.injEq] at hbh
        simp [hbh]
      have hrec : hasSpColon (joinSpace ((hb0 :: b') :: r)) = false :=
        ih (fun x hx => h x (by simp [hx]))
      rw [joinSpace_cons] at hrec
      simp only [List.cons_append] at hrec
      show hasSpColon (a ++ ' ' :: joinSpace ((hb0 :: b') :: r)) = false
      rw [hasSpColon_append a _ (okParam_no_space (h a (by simp)))]
      rw [joinSpace_cons]
      simp only [List.cons_append]
      show ((decide ((' ' : Char) = ' ') && decide (hb0 = ':')) ||
        hasSpColon (hb0 :: (b' ++ if r.isEmpty then [] else ' ' :: joinSpace r))) = false
      simp only [List.isEmpty_iff] at hrec
      simp [hbh', hrec]

theorem wsSplit_single (a : Str) (ha : a ≠ []) (hw : ∀ c ∈ a, ¬ c.isWhitespace) :
    wsSplit a = [a] := by
  induction a with
  | nil => exact absurd rfl ha
  | cons c a' ih =>
    have hc : c.isWhitespace = false := by
      simpa using hw c (by simp)
    cases a' with
    | nil => simp [wsSplit, hc]
    | cons d a'' =>
      have hd : d.isWhitespace = false := by
        simpa using hw d (by simp)
      have := ih (by simp) (fun x hx => hw x (by simp [hx]))
      simp [wsSplit, hc, hd] at this ⊢
      simp [this]

theorem wsSplit_ws_cons (t : Str) : wsSplit (' ' :: t) = wsSplit t := by
  simp [wsSplit]

theorem wsSplit_append_space (a t : Str) (ha : a ≠ [])
    (hw : ∀ c ∈ a, ¬ c.isWhitespace) :
    wsSplit (a ++ ' ' :: t) = a :: wsSplit t := by
  induction a with
  | nil => exact absurd rfl ha
  | cons c a' ih =>
    have hc : c.isWhitespace = false := by
      simpa using hw c (by simp)
    cases a' with
    | nil =>
      simp only [List.cons_append, List.nil_append, wsSplit, hc,
        Bool.false_eq_true, if_false]
      simp [wsSplit_ws_cons]
    | cons d a'' =>
      have hd : d.isWhitespace = false := by
        simpa using hw d (by simp)
      have := ih (by simp) (fun x hx => hw x (by simp [hx]))
      simp only [List.cons_append] at this ⊢
      simp only [wsSplit, hc, hd, Bool.false_eq_true, if_false] at this ⊢
      simp [this]

theorem parsemsg_colon_rest (p body m3 r : Str) (hp : ∀ c ∈ p, c ≠ ' ')
    (hb : splitFirst [' ', ':'] body = some (m3, r)) :
    parsemsg (':' :: (p ++ ' ' :: body)) = .ok (some ⟨some p, wsSplit m3, some r⟩) := by
  simp [parsemsg, splitFirst_space p body hp, hb]

theorem parsemsg_colon_norest (p body : Str) (hp : ∀ c ∈ p, c ≠ ' ')
    (hb : splitFirst [' ', ':'] body = none) :
    parsemsg (':' :: (p ++ ' ' :: body)) = .ok (some ⟨some p, wsSplit body, none⟩) := by
  simp [parsemsg, splitFirst_space p body hp, hb]

theorem parsemsg_plain_rest (m m3 r : Str) (hm : m ≠ []) (hh : m.head? ≠ some ':')
    (hb : splitFirst [' ', ':'] m = some (m3, r)) :
    parsemsg m = .ok (some ⟨none, wsSplit m3, some r⟩) := by
  simp [parsemsg, hm, hh, hb]

theorem parsemsg_plain_norest (m : Str) (hm : m ≠ []) (hh : m.head? ≠ some ':')
    (hb : splitFirst [' ', ':'] m = none) :
    parsemsg m = .ok (some ⟨none, wsSplit m, none⟩) := by
  simp [parsemsg, hm, hh, hb]

theorem wsSplit_joinSpace (args : List Str) (h : ∀ a ∈ args, OkParam a) :
    wsSplit (joinSpace args) = args := by
  induction args with
  | nil => rfl
  | cons a args' ih =>
    obtain ⟨hane, haw, -⟩ := h a (by simp)
    cases args' with
    | nil => exact wsSplit_single a hane haw
    | cons b r =>
      simp only [joinSpace]
      rw [wsSplit_append_space _ _ hane haw,
        ih (fun x hx => h x (by simp [hx]))]


/-! ## C1: codec round-trip -/

/-- C1 (amended): for every triple whose params are nonempty, contain no
whitespace and do not begin with `':'`, whose prefix (when present) is
nonempty and contains no space, whose trailing (when present) is nonempty,
and which is not entirely empty, parsing the line produced by building the
triple returns exactly the same prefix, params and trailing. -/
theorem c1_roundtrip_amended (px rest : Option Str) (args : List Str)
    (hargs : ∀ a ∈ args, OkParam a)
    (hpx : match px with
           | some p => p ≠ [] ∧ ∀ c ∈ p, c ≠ ' '
           | none => True)
    (hrest : match rest with
             | some r => r ≠ []
             | none => True)
    (hne : ¬(px = none ∧ args = [] ∧ rest = none)) :
    parsemsg (buildmsg args px rest) = .ok (some ⟨px, args, rest⟩) := by
  have hSC : hasSpColon (joinSpace args) = false := hasSpColon_joinSpace args hargs
  have hWS : wsSplit (joinSpace args) = args := wsSplit_joinSpace args hargs
  cases px with
  | some p =>
    obtain ⟨hpne, hpns⟩ := hpx
    have hpe : p.isEmpty = false := by
      cases p with
      | nil => exact absurd rfl hpne
      | cons _ _ => rfl
    cases rest with
    | some r =>
      have hrne : r ≠ [] := hrest
      have hre : r.isEmpty = false := by
        cases r with
        | nil => exact absurd rfl hrne
        | cons _ _ => rfl
      have hshape : buildmsg args (some p) (some r) =
          ':' :: (p ++ ' ' :: (joinSpace args ++ ' ' :: ':' :: r)) := by
        simp [buildmsg, hpe, hre, List.append_assoc]
      rw [hshape,
        parsemsg_colon_rest p _ (joinSpace args) r hpns (splitFirst_spcolon _ _ hSC),
        hWS]
    | none =>
      have hshape : buildmsg args (some p) none =
          ':' :: (p ++ ' ' :: joinSpace args) := by
        simp [buildmsg, hpe]
      rw [hshape,
        parsemsg_colon_norest p _ hpns (splitFirst_spcolon_none _ hSC), hWS]
  | none =>
    cases rest with
    | some r =>
      have hrne : r ≠ [] := hrest
      have hre : r.isEmpty = false := by
        cases r with
        | nil => exact absurd rfl hrne
        | cons _ _ => rfl
      have hshape : buildmsg args none (some r) =
          joinSpace args ++ ' ' :: ':' :: r := by
        simp [buildmsg, hre]
      cases hargs0 : args with
      | nil =>
        subst hargs0
        rw [hshape]
        rw [parsemsg_plain_rest _ (joinSpace []) r (by simp [joinSpace])
          (by simp [joinSpace]) (splitFirst_spcolon _ _ hSC), hWS]
      | cons a args' =>
        subst hargs0
        obtain ⟨hane, -, hah⟩ := hargs a (by simp)
        obtain ⟨ha0, a', rfl⟩ : ∃ c cs, a = c :: cs := by
          cases a with
          | nil => exact absurd rfl hane
          | cons x xs => exact ⟨x, xs, rfl⟩
        have hmne : joinSpace ((ha0 :: a') :: args') ++ ' ' :: ':' :: r ≠ [] := by
          rw [joinSpace_cons]
          simp
        have hmh : (joinSpace ((ha0 :: a') :: args') ++ ' ' :: ':' :: r).head? ≠
            some ':' := by
          rw [joinSpace_cons]
          simp only [List.head?_cons, ne_eq, Option.some.injEq, List.cons_append]
          simpa using hah
        rw [hshape,
          parsemsg_plain_rest _ (joinSpace ((ha0 :: a') :: args')) r hmne hmh
            (splitFirst_spcolon _ _ hSC), hWS]
    | none =>
      have hane : args ≠ [] := by
        intro h
        exact hne ⟨rfl, h, rfl⟩
      cases hargs0 : args with
      | nil => exact absurd hargs0 hane
      | cons a args' =>
        subst hargs0
        obtain ⟨hane', -, hah⟩ := hargs a (by simp)
        obtain ⟨ha0, a', rfl⟩ : ∃ c cs, a = c :: cs := by
          cases a with
          | nil => exact absurd rfl hane'
          | cons x xs => exact ⟨x, xs, rfl⟩
        have hshape : buildmsg ((ha0 :: a') :: args') none none =
            joinSpace ((ha0 :: a') :: args') := by
          simp [buildmsg]
        have hmne : joinSpace ((ha0 :: a') :: args') ≠ [] := by
          rw [joinSpace_cons]
          simp
        have hmh : (joinSpace ((ha0 :: a') :: args')).head? ≠ some ':' := by
          rw [joinSpace_cons]
          simp only [List.head?_cons, ne_eq, Option.some.injEq, List.cons_append]
          simpa using hah
        rw [hshape,
          parsemsg_plain_norest _ hmne hmh (splitFirst_spcolon_none _ hSC), hWS]

/-- Witness for `c1_roundtrip_amended` at a concrete triple. -/
theorem c1_roundtrip_amended_witness :
    parsemsg (buildmsg [str "PRIVMSG", str "#chan"] (some (str "nick!user@host"))
        (some (str "hello world"))) =
      .ok (some ⟨some (str "nick!user@host"), [str "PRIVMSG", str "#chan"],
                 some (str "hello world")⟩) :=
  c1_roundtrip_amended (some (str "nick!user@host")) (some (str "hello world"))
    [str "PRIVMSG", str "#chan"] (by decide) (by decide) (by decide) (by decide)

/-- C1 (counterexample to the claim as stated): the params `["a", ":b"]` are
space-free and nonempty, yet `parse(build(...))` does not recover them — the
second param is absorbed into a trailing that was absent in the original
triple. -/
theorem c1_claim_counterexample :
    (∀ a ∈ [str "a", str ":b"], a ≠ [] ∧ ' ' ∉ a) ∧
    parsemsg (buildmsg [str "a", str ":b"] none none) =
      .ok (some ⟨none, [str "a"], some (str "b")⟩) ∧
    parsemsg (buildmsg [str "a", str ":b"] none none) ≠
      .ok (some ⟨none, [str "a", str ":b"], none⟩) := by decide

/-! ## C2: nick change and channel membership -/

/-- C2 (divergence of the code from the claim): after the nick-change event
renaming `alice` (a member of `#x`) to `alicia`, the channel's member set
still holds exactly the one original entity (object 0) and the roster index
maps `alicia` — and no longer `alice` — to it; but the membership test on
the channel (`User(n) in channel`, CPython set lookup) now fails for BOTH
`alicia` and `alice`, because the stored entry still carries the hash of
`alice` while the object's name is `alicia`.  The claim asserts the test
succeeds for `alicia`. -/
theorem c2_nick_rename_bug :
    processLine 8 c2Start c2Line = .ok (c2After, [Ev.cmdInvoked CmdFn.onNick]) ∧
    c2Members = [⟨str "alice", 0⟩] ∧
    dictGet c2After.userIndex (str "alicia") = some 0 ∧
    dictGet c2After.userIndex (str "alice") = none ∧
    heapName c2After.users 0 = str "alicia" ∧
    pySetMemName c2After.users c2Members (str "alicia") = false ∧
    pySetMemName c2After.users c2Members (str "alice") = false := by decide

/-! ## C3: join handshake and handler deregistration -/

/-- C3 (divergence of the code from the claim): after the join handshake,
the member set of `#x` is exactly the listed users with their membership
prefixes stripped, and a second end-of-names reply triggers nothing; but
`remove_command_handler` removes entries from the list it is iterating, so
of the three `gather_nicks` registrations ("@", "*", "=") it removes only
the first and third: the `"*"`-marker registration survives, and a later
name-list reply under that marker still fires it and mutates the member
set.  The claim asserts all temporary handlers are removed and that a
second name-list reply triggers nothing. -/
theorem c3_join_handshake_bug :
    runLines 16 c3Start [c3L1, c3L2, c3L3] = .ok (c3After,
      [Ev.cmdInvoked CmdFn.onJoin,
       Ev.cmdInvoked (CmdFn.gatherNicks (str "#x")),
       Ev.cmdInvoked (CmdFn.joinFinished (str "#x"))]) ∧
    c3Members = [⟨str "nick1", 1⟩, ⟨str "nick2", 2⟩, ⟨str "nick3", 3⟩] ∧
    heapName c3After.users 1 = str "nick1" ∧
    heapName c3After.users 2 = str "nick2" ∧
    heapName c3After.users 3 = str "nick3" ∧
    c3After.cmdHandlers = initCmdHandlers ++
      [⟨[ccNAMREPLY, str "me", str "*", str "#x"], none,
        CmdFn.gatherNicks (str "#x")⟩] ∧
    processLine 16 c3After c3L3 = .ok (c3After, []) ∧
    processLine 16 c3After c3L4 =
      .ok (c3Ghost, [Ev.cmdInvoked (CmdFn.gatherNicks (str "#x"))]) ∧
    c3GhostMembers = [⟨str "nick1", 1⟩, ⟨str "nick2", 2⟩, ⟨str "nick3", 3⟩,
      ⟨str "ghost", 4⟩] := by decide

/-! ## C4: keepalive handling -/

/-- C4: for every state and every line whose first token is the
keepalive-ping token with trailing payload `t`, processing the line sends
exactly one message — the keepalive-pong token with the same trailing `t`
— leaves the state unchanged, and invokes no command handler and no
message handler. -/
theorem c4_ping_pong (s : ClientState) (fuel : Nat) (line : Str)
    (m : IrcMessage) (t : Str)
    (hp : parsemsg line = .ok (some m))
    (hping : m.args.head? = some ccPING)
    (ht : m.rest = some t) :
    processLine fuel s line = .ok (s, [Ev.sent [ccPONG] none (some t)]) := by
  obtain ⟨pfx0, args0, rest0⟩ := m
  have ht' : rest0 = some t := ht
  subst ht'
  cases args0 with
  | nil => simp at hping
  | cons cmd rest' =>
    have hping' : cmd = ccPING := by
      simpa using hping
    subst hping'
    simp [processLine, hp]

/-- Witness for `c4_ping_pong` at the spec's own example, `"PING :abc"`. -/
theorem c4_ping_pong_witness :
    processLine 8 (mkClient (str "me")) (str "PING :abc") =
      .ok (mkClient (str "me"), [Ev.sent [ccPONG] none (some (str "abc"))]) :=
  c4_ping_pong (mkClient (str "me")) 8 (str "PING :abc")
    ⟨none, [ccPING], some (str "abc")⟩ (str "abc") (by decide) (by decide) (by decide)

/-! ## C5: malformed lines -/

/-- C5 (counterexample to the claim as stated): a line consisting only of a
`":"`-introduced prefix with no space, and a line consisting only of
whitespace, are not dropped silently — processing them raises (ValueError
from the two-element unpacking in `_parsemsg`; IndexError from
`msg.args[0]` in `_handle_special`), which propagates and tears the
dispatch loop down. -/
theorem c5_claim_counterexample :
    processLine 8 (mkClient (str "me")) (str ":x") = .error PyErr.valueError ∧
    processLine 8 (mkClient (str "me")) (str " ") = .error PyErr.indexError := by
  decide

/-- C5 (amended): an empty line is dropped silently — no handler fires, no
output is produced, the state is unchanged and the loop continues; but a
non-empty malformed line (a lone `":"`-introduced prefix, or whitespace
only) raises an exception that propagates and terminates the dispatch
loop. -/
theorem c5_malformed_lines (s : ClientState) (fuel : Nat) :
    processLine fuel s [] = .ok (s, []) ∧
    processLine fuel s (str ":x") = .error PyErr.valueError ∧
    processLine fuel s (str " ") = .error PyErr.indexError := by
  have h1 : parsemsg [] = .ok none := by decide
  have h2 : parsemsg (str ":x") = .error PyErr.valueError := by decide
  have h3 : parsemsg (str " ") = .ok (some ⟨none, [], none⟩) := by decide
  refine ⟨?_, ?_, ?_⟩
  · simp [processLine, h1]
  · simp [processLine, h2]
  · simp [processLine, h3]

/-! ## C7: hostmask retention -/

theorem getUser_keeps_hostmask (s : ClientState) (q : Str) (uid : Nat) (h : Str)
    (hh : (s.users.getD uid noUser).hostmask = some h) (hne : h ≠ []) :
    ((getUser s q).1.users.getD uid noUser).hostmask = some h := by
  rcases Nat.lt_or_ge uid s.users.length with hu | hu
  · simp only [getUser]
    cases hd : dictGet s.userIndex (if containsSub ['!'] q then
        ((partitionOn ['!'] q).1, some (partitionOn ['!'] q).2.2) else (q, none)).1 with
    | none =>
      simp only
      rw [List.getD_append _ _ _ _ hu]
      exact hh
    | some uid' =>
      simp only
      by_cases ht : pyTruthy (s.users.getD uid' noUser).hostmask
      · simp only [ht, if_pos]
        exact hh
      · simp only [ht, Bool.false_eq_true, if_false]
        by_cases he : uid' = uid
        · subst he
          rw [hh] at ht
          have : pyTruthy (some h) = true := by
            cases hcs : h with
            | nil => exact absurd hcs hne
            | cons x xs => simp [pyTruthy]
          exact absurd this ht
        · rw [List.getD_eq_getElem?_getD, List.getElem?_set_ne he,
            ← List.getD_eq_getElem?_getD]
          exact hh
  · rw [List.getD_eq_default _ _ hu] at hh
    simp [noUser] at hh

/-- C7: `resolve-user("a!u@h")` followed by `resolve-user("a")` returns the
identical `User` entity (object 0) both times, with hostmask `"u@h"`; and
in general, once a user object's hostmask holds a nonempty string, no later
resolution (in particular one whose argument carries no hostmask) ever
changes it. -/
theorem c7_hostmask_retention :
    ((getUser (mkClient (str "me")) (str "a!u@h")).2 = 0 ∧
     (getUser c7s1 (str "a")).2 = 0 ∧
     (getUser c7s1 (str "a")).1.users = [⟨str "a", some (str "u@h")⟩] ∧
     ((getUser c7s1 (str "a")).1.users.getD 0 noUser).hostmask = some (str "u@h")) ∧
    (∀ (s : ClientState) (q : Str) (uid : Nat) (h : Str),
      (s.users.getD uid noUser).hostmask = some h → h ≠ [] →
      ((getUser s q).1.users.getD uid noUser).hostmask = some h) :=
  ⟨by decide, fun s q uid h hh hne => getUser_keeps_hostmask s q uid h hh hne⟩

/-- Witness for the general clause of `c7_hostmask_retention` at a concrete
state and resolution. -/
theorem c7_hostmask_retention_witness :
    ((getUser c7s1 (str "zzz")).1.users.getD 0 noUser).hostmask =
      some (str "u@h") :=
  c7_hostmask_retention.2 c7s1 (str "zzz") 0 (str "u@h") (by decide) (by decide)

/-! ## C10: string sender filter on a server-origin message -/

theorem dispatch_no_match (msg : IrcMessage) (s : ClientState)
    (hnm : ∀ ch ∈ s.cmdHandlers, cmdMatches ch msg = false) :
    ∀ fuel i, s.cmdHandlers.length - i < fuel →
      dispatchCmds msg fuel s i = .ok (s, []) := by
  intro fuel
  induction fuel with
  | zero => intro i hf; omega
  | succ fuel ih =>
    intro i hf
    by_cases hi : i < s.cmdHandlers.length
    · have hm : cmdMatches (s.cmdHandlers.getD i ⟨[], none, .onJoin⟩) msg = false := by
        rw [List.getD_eq_getElem _ _ hi]
        exact hnm _ (List.getElem_mem hi)
      simp only [dispatchCmds, hi, if_pos, hm, Bool.false_eq_true, if_false]
      exact ih (i + 1) (by omega)
    · simp only [dispatchCmds, hi, if_false]

/-- C10: for every message handler registered with a string sender filter
(and no other filter), processing a server-origin chat line — whose
resolved sender is `None` because the prefix lacks user and host components
— makes the matcher read `msg.sender.name` and raise `AttributeError`
during synchronous matcher evaluation, so the whole dispatch step fails
(the loop tears down) instead of the handler being skipped: matcher
evaluation is not wrapped in the `_bg` error boundary that isolates handler
bodies. -/
theorem c10_sender_matcher_crash (sn : Str) (tag : Nat) :
    runMatchers ⟨none, none, some sn, none, tag⟩ c10ServerMsg =
      .error PyErr.attributeError ∧
    processLine 8 (c10State sn tag) c10Line = .error PyErr.attributeError := by
  constructor
  · rfl
  · have hp : parsemsg c10Line = .ok (some ⟨some (str "irc.example.net"),
        [ccNOTICE, str "me"], some (str "hello")⟩) := by decide
    have hnm : ∀ ch ∈ (c10State sn tag).cmdHandlers,
        cmdMatches ch ⟨some (str "irc.example.net"),
          [ccNOTICE, str "me"], some (str "hello")⟩ = false := by
      intro ch hch
      have hch' : ch ∈ initCmdHandlers := hch
      fin_cases hch' <;> decide
    have hd : dispatchCmds ⟨some (str "irc.example.net"),
        [ccNOTICE, str "me"], some (str "hello")⟩ 8 (c10State sn tag) 0 =
        .ok (c10State sn tag, []) :=
      dispatch_no_match _ _ hnm 8 0
        (by show initCmdHandlers.length - 0 < 8; decide)
    have hping : ¬(ccNOTICE = ccPING) := by decide
    simp only [processLine, hp, hping, if_false, hd]
    simp [c10State, mkClient, resolveSender, resolveRecipient, getUser,
      dictGet, handleOnMessage, runMatchers, containsSub, splitFirst,
      leadEq, str]

/-! ## C9: infrastructure -/

theorem splitFirst_char_none (ch : Char) (s : Str) (h : ch ∉ s) :
    splitFirst [ch] s = none := by
  induction s with
  | nil => simp [splitFirst, leadEq]
  | cons c cs ih =>
    have hc : ¬ (ch = c) := by
      intro he
      exact h (by simp [he])
    have hlead : leadEq [ch] (c :: cs) = false := by
      simp [leadEq, hc]
    rw [splitFirst_cons_not_lead hlead, ih (fun hm => h (by simp [hm]))]
    rfl

theorem dictGet_isSome_iff {α : Type} (d : List (Str × α)) (n : Str) :
    (dictGet d n).isSome ↔ ∃ e ∈ d, e.1 = n := by
  unfold dictGet
  cases hf : List.find? (fun e => decide (e.1 = n)) d with
  | none =>
    simp only [Option.isSome_none, Bool.false_eq_true, false_iff]
    rintro ⟨e, he, hen⟩
    have hs : (List.find? (fun e => decide (e.1 = n)) d).isSome := by
      rw [List.find?_isSome]
      exact ⟨e, he, decide_eq_true hen⟩
    rw [hf] at hs
    simp at hs
  | some e =>
    simp only [Option.isSome_some, true_iff]
    exact ⟨e, List.mem_of_find?_eq_some hf, by simpa using List.find?_some hf⟩

theorem keys_sub_dictSet {α : Type} (d : List (Str × α)) (k : Str) (v : α)
    (n : Str) (h : ∃ e ∈ d, e.1 = n) : ∃ e ∈ dictSet d k v, e.1 = n := by
  induction d with
  | nil =>
    obtain ⟨x, hx, -⟩ := h
    exact absurd hx (List.not_mem_nil x)
  | cons e es ih =>
    obtain ⟨x, hx, hxn⟩ := h
    simp only [dictSet]
    by_cases he : e.1 = k
    · rw [if_pos he]
      rcases List.mem_cons.mp hx with rfl | hx'
      · exact ⟨(k, v), by simp, by rw [← hxn, he]⟩
      · exact ⟨x, by simp [hx'], hxn⟩
    · rw [if_neg he]
      rcases List.mem_cons.mp hx with rfl | hx'
      · exact ⟨x, by simp, hxn⟩
      · obtain ⟨y, hy, hyn⟩ := ih ⟨x, hx', hxn⟩
        exact ⟨y, by simp [hy], hyn⟩

theorem keys_sub_map {α : Type} (d : List (Str × α)) (g : Str × α → Str × α)
    (hg : ∀ e, (g e).1 = e.1) (n : Str)
    (h : ∃ e ∈ d, e.1 = n) : ∃ e ∈ d.map g, e.1 = n := by
  obtain ⟨x, hx, hxn⟩ := h
  exact ⟨g x, List.mem_map_of_mem g hx, by rw [hg]; exact hxn⟩

theorem chanPres_refl (s : ClientState) : ChanPres s s := fun _ h => h

theorem chanPres_trans {a b c : ClientState} (h1 : ChanPres a b)
    (h2 : ChanPres b c) : ChanPres a c := fun n h => h2 n (h1 n h)

theorem chanPres_of_channels_eq {s s' : ClientState}
    (h : s'.channels = s.channels) : ChanPres s s' := by
  intro n hn
  rw [h]
  exact hn

theorem getUser_channels (s : ClientState) (q : Str) :
    (getUser s q).1.channels = s.channels := by
  simp only [getUser]
  split <;> first | rfl | (split <;> rfl)

theorem chanPres_getUser (s : ClientState) (q : Str) :
    ChanPres s (getUser s q).1 :=
  chanPres_of_channels_eq (getUser_channels s q)

theorem chanPres_getChannel (s : ClientState) (name : Str) :
    ChanPres s (getChannel s name) := by
  unfold getChannel
  cases dictGet s.channels name with
  | some _ => exact chanPres_refl s
  | none =>
    intro n hn
    rw [dictGet_isSome_iff] at hn ⊢
    exact keys_sub_dictSet _ _ _ _ hn

theorem chanPres_updateChannel (s : ClientState) (name : Str)
    (f : ChannelD → ChannelD) : ChanPres s (updateChannel s name f) := by
  intro n hn
  rw [dictGet_isSome_iff] at hn ⊢
  exact keys_sub_map _ _ (fun e => by split <;> rfl) _ hn

theorem chanPres_map_users (s : ClientState)
    (f : ChannelD → ChannelD) :
    ChanPres s { s with
      channels := s.channels.map (fun e => (e.1, f e.2)) } := by
  intro n hn
  rw [dictGet_isSome_iff] at hn ⊢
  exact keys_sub_map s.channels (fun e => (e.1, f e.2)) (fun e => rfl) n hn

theorem chanPres_execOnJoin {s : ClientState} {msg : IrcMessage}
    {s' : ClientState} {evs : List Ev}
    (h : execOnJoin s msg = .ok (s', evs)) : ChanPres s s' := by
  simp only [execOnJoin] at h
  split at h
  · exact absurd h (by simp)
  · rename_i chanName hcn
    split at h
    · exact absurd h (by simp)
    · rename_i pfx hpfx
      split at h
      · simp only [Except.ok.injEq, Prod.mk.injEq] at h
        obtain ⟨h1, -⟩ := h
        subst h1
        exact chanPres_trans (chanPres_getChannel s chanName)
          (chanPres_trans (chanPres_getUser _ pfx) (chanPres_updateChannel _ _ _))
      · simp only [Except.ok.injEq, Prod.mk.injEq] at h
        obtain ⟨h1, -⟩ := h
        subst h1
        exact chanPres_trans (chanPres_getChannel s chanName)
          (chanPres_trans (chanPres_getUser _ pfx) (chanPres_of_channels_eq rfl))

theorem chanPres_gatherOne {s : ClientState} {chan tok : Str}
    {s' : ClientState} (h : gatherOne s chan tok = .ok s') : ChanPres s s' := by
  simp only [gatherOne] at h
  split at h
  · exact absurd h (by simp)
  · simp only [Except.ok.injEq] at h
    subst h
    exact chanPres_trans (chanPres_getUser _ _) (chanPres_updateChannel _ _ _)

theorem chanPres_gatherLoop {chan : Str} : ∀ {toks : List Str}
    {s s' : ClientState}, gatherLoop chan s toks = .ok s' → ChanPres s s' := by
  intro toks
  induction toks with
  | nil =>
    intro s s' h
    simp only [gatherLoop, Except.ok.injEq] at h
    subst h
    exact chanPres_refl _
  | cons t ts ih =>
    intro s s' h
    simp only [gatherLoop] at h
    cases hg : gatherOne s chan t with
    | error e => rw [hg] at h; simp at h
    | ok s1 =>
      rw [hg] at h
      exact chanPres_trans (chanPres_gatherOne hg) (ih h)

theorem chanPres_execGatherNicks {s : ClientState} {chan : Str}
    {msg : IrcMessage} {s' : ClientState} {evs : List Ev}
    (h : execGatherNicks s chan msg = .ok (s', evs)) : ChanPres s s' := by
  simp only [execGatherNicks] at h
  split at h
  · exact absurd h (by simp)
  · rename_i rest hrest
    cases hg : gatherLoop chan s (splitSpaceKeep (pyStrip rest)) with
    | error e => rw [hg] at h; simp at h
    | ok s1 =>
      rw [hg] at h
      simp only [Except.ok.injEq, Prod.mk.injEq] at h
      obtain ⟨h1, -⟩ := h
      subst h1
      exact chanPres_gatherLoop hg

theorem execJoinFinished_channels (s : ClientState) (chan : Str) :
    (execJoinFinished s chan).1.channels = s.channels := rfl

theorem chanPres_execOnQuit {s : ClientState} {msg : IrcMessage}
    {s' : ClientState} {evs : List Ev}
    (h : execOnQuit s msg = .ok (s', evs)) : ChanPres s s' := by
  simp only [execOnQuit] at h
  split at h
  · exact absurd h (by simp)
  · rename_i pfx hpfx
    split at h
    · exact absurd h (by simp)
    · rename_i d hd
      simp only [Except.ok.injEq, Prod.mk.injEq] at h
      obtain ⟨h1, -⟩ := h
      subst h1
      refine chanPres_trans (chanPres_getUser s pfx) ?_
      intro n hn
      rw [dictGet_isSome_iff] at hn ⊢
      exact keys_sub_map (getUser s pfx).1.channels
        (fun e => (e.1, { e.2 with users := pySetDiscard (getUser s pfx).1.users e.2.users (getUser s pfx).2 }))
        (fun e => rfl) n hn

theorem chanPres_execOnPart {s : ClientState} {msg : IrcMessage}
    {s' : ClientState} {evs : List Ev}
    (h : execOnPart s msg = .ok (s', evs)) : ChanPres s s' := by
  simp only [execOnPart] at h
  split at h
  · exact absurd h (by simp)
  · rename_i pfx hpfx
    split at h
    · exact absurd h (by simp)
    · rename_i chanName rest2 hdrop
      split at h
      · exact absurd h (by simp)
      · rename_i ch hch
        split at h
        · exact absurd h (by simp)
        · rename_i es hes
          simp only [Except.ok.injEq, Prod.mk.injEq] at h
          obtain ⟨h1, -⟩ := h
          subst h1
          exact chanPres_trans (chanPres_getUser s pfx)
            (chanPres_trans (chanPres_getChannel _ chanName)
              (chanPres_updateChannel _ _ _))

theorem chanPres_execOnNick {s : ClientState} {msg : IrcMessage}
    {s' : ClientState} {evs : List Ev}
    (h : execOnNick s msg = .ok (s', evs)) : ChanPres s s' := by
  simp only [execOnNick] at h
  split at h
  · exact absurd h (by simp)
  · rename_i pfx hpfx
    split at h
    · exact absurd h (by simp)
    · rename_i d hd
      split at h
      · exact absurd h (by simp)
      · rename_i newNick hnn
        split at h
        · simp only [Except.ok.injEq, Prod.mk.injEq] at h
          obtain ⟨h1, -⟩ := h
          subst h1
          exact chanPres_trans (chanPres_getUser s pfx)
            (chanPres_of_channels_eq rfl)
        · simp only [Except.ok.injEq, Prod.mk.injEq] at h
          obtain ⟨h1, -⟩ := h
          subst h1
          exact chanPres_trans (chanPres_getUser s pfx)
            (chanPres_of_channels_eq rfl)

theorem chanPres_execCmdFn {s : ClientState} {fn : CmdFn} {msg : IrcMessage}
    {s' : ClientState} {evs : List Ev}
    (h : execCmdFn s fn msg = .ok (s', evs)) : ChanPres s s' := by
  cases fn with
  | onJoin => exact chanPres_execOnJoin h
  | onQuit => exact chanPres_execOnQuit h
  | onPart => exact chanPres_execOnPart h
  | onNick => exact chanPres_execOnNick h
  | gatherNicks chan => exact chanPres_execGatherNicks h
  | joinFinished chan =>
    simp only [execCmdFn, Except.ok.injEq] at h
    have h1 : (execJoinFinished s chan).1 = s' := by rw [h]
    subst h1
    exact chanPres_of_channels_eq (execJoinFinished_channels s chan)

theorem chanPres_dispatchCmds {msg : IrcMessage} : ∀ {fuel : Nat}
    {s : ClientState} {i : Nat} {s' : ClientState} {evs : List Ev},
    dispatchCmds msg fuel s i = .ok (s', evs) → ChanPres s s' := by
  intro fuel
  induction fuel with
  | zero =>
    intro s i s' evs h
    simp [dispatchCmds] at h
  | succ fuel ih =>
    intro s i s' evs h
    simp only [dispatchCmds] at h
    split at h
    · split at h
      · cases he : execCmdFn s (s.cmdHandlers.getD i ⟨[], none, .onJoin⟩).fn msg with
        | error e => rw [he] at h; simp at h
        | ok p =>
          rw [he] at h
          obtain ⟨s1, evs1⟩ := p
          dsimp only at h
          cases hd : dispatchCmds msg fuel s1 (i + 1) with
          | error e => rw [hd] at h; simp at h
          | ok p2 =>
            rw [hd] at h
            obtain ⟨s2, evs2⟩ := p2
            simp only [Except.ok.injEq, Prod.mk.injEq] at h
            obtain ⟨rfl, -⟩ := h
            exact chanPres_trans (chanPres_execCmdFn he) (ih hd)
      · exact ih h
    · simp only [Except.ok.injEq, Prod.mk.injEq] at h
      obtain ⟨rfl, -⟩ := h
      exact chanPres_refl s

theorem chanPres_resolveSender {s : ClientState} {px : Option Str}
    {s' : ClientState} {u : Option Nat}
    (h : resolveSender s px = .ok (s', u)) : ChanPres s s' := by
  cases px with
  | none => simp [resolveSender] at h
  | some p =>
    simp only [resolveSender] at h
    split at h
    · simp only [Except.ok.injEq, Prod.mk.injEq] at h
      obtain ⟨h1, -⟩ := h
      subst h1
      exact chanPres_getUser s p
    · simp only [Except.ok.injEq, Prod.mk.injEq] at h
      obtain ⟨h1, -⟩ := h
      subst h1
      exact chanPres_refl s

theorem chanPres_resolveRecipient {s : ClientState} {tok : Str}
    {s' : ClientState} {r : RecipientD}
    (h : resolveRecipient s tok = .ok (s', r)) : ChanPres s s' := by
  cases tok with
  | nil => simp [resolveRecipient] at h
  | cons c cs =>
    simp only [resolveRecipient] at h
    split at h
    · simp only [Except.ok.injEq, Prod.mk.injEq] at h
      obtain ⟨h1, -⟩ := h
      subst h1
      exact chanPres_getChannel s (c :: cs)
    · simp only [Except.ok.injEq, Prod.mk.injEq] at h
      obtain ⟨h1, -⟩ := h
      subst h1
      exact chanPres_getUser s (c :: cs)

/-- No processed line ever removes a channel from the name→Channel index. -/
theorem chanPres_processLine {fuel : Nat} {s : ClientState} {line : Str}
    {s' : ClientState} {evs : List Ev}
    (h : processLine fuel s line = .ok (s', evs)) : ChanPres s s' := by
  simp only [processLine] at h
  cases hp : parsemsg line with
  | error e => rw [hp] at h; simp at h
  | ok mo =>
    rw [hp] at h
    cases mo with
    | none =>
      dsimp only at h
      simp only [Except.ok.injEq, Prod.mk.injEq] at h
      obtain ⟨rfl, -⟩ := h
      exact chanPres_refl s
    | some msg =>
      dsimp only at h
      cases hargs : msg.args with
      | nil => rw [hargs] at h; simp at h
      | cons cmd rest' =>
        rw [hargs] at h
        dsimp only at h
        split at h
        · simp only [Except.ok.injEq, Prod.mk.injEq] at h
          obtain ⟨rfl, -⟩ := h
          exact chanPres_refl s
        · cases hd : dispatchCmds msg fuel s 0 with
          | error e => rw [hd] at h; simp at h
          | ok p =>
            rw [hd] at h
            obtain ⟨s1, evs1⟩ := p
            dsimp only at h
            split at h
            · simp only [Except.ok.injEq, Prod.mk.injEq] at h
              obtain ⟨rfl, -⟩ := h
              exact chanPres_dispatchCmds hd
            · split at h
              · cases hrs : resolveSender s1 msg.pfx with
                | error e => rw [hrs] at h; simp at h
                | ok p2 =>
                  rw [hrs] at h
                  obtain ⟨s2, uo⟩ := p2
                  dsimp only at h
                  split at h
                  · exact absurd h (by simp)
                  · rename_i tok toks hdrop
                    cases hrr : resolveRecipient s2 tok with
                    | error e => rw [hrr] at h; simp at h
                    | ok p3 =>
                      rw [hrr] at h
                      obtain ⟨s3, rcpt⟩ := p3
                      dsimp only at h
                      cases hm : handleOnMessage
                          ⟨uo.map (fun uid => s3.users.getD uid noUser),
                           rcpt, msg.rest, decide (cmd = ccNOTICE)⟩
                          s3.msgHandlers with
                      | error e => rw [hm] at h; simp at h
                      | ok evs2 =>
                        rw [hm] at h
                        simp only [Except.ok.injEq, Prod.mk.injEq] at h
                        obtain ⟨rfl, -⟩ := h
                        exact chanPres_trans (chanPres_dispatchCmds hd)
                          (chanPres_trans (chanPres_resolveSender hrs)
                            (chanPres_resolveRecipient hrr))
              · simp only [Except.ok.injEq, Prod.mk.injEq] at h
                obtain ⟨rfl, -⟩ := h
                exact chanPres_dispatchCmds hd

theorem c9_part (a b c d : Str) (ha : '!' ∉ a) (hdc : d ≠ c) :
    execOnPart (c9State a b c d) ⟨some a, [ccPART, c], some (str "bye")⟩ =
      .ok ({ c9State a b c d with
             channels := [(c, ⟨c, [⟨b, 1⟩]⟩), (d, ⟨d, [⟨a, 0⟩]⟩)] }, []) := by
  have hca : containsSub ['!'] a = false := by
    simp [containsSub, splitFirst_char_none '!' a ha]
  simp [execOnPart, getUser, getChannel, updateChannel, c9State, mkClient,
    hca, dictGet, dictSet, pySetRemove, pySetMem, pySetErase, heapName,
    pyTruthy, List.find?, hdc, noUser, List.getD]

theorem c9_quit (a b c d : Str) (ha : '!' ∉ a) :
    execOnQuit (c9State a b c d) ⟨some a, [ccQUIT], some (str "bye")⟩ =
      .ok ({ c9State a b c d with
             userIndex := [(b, 1)],
             channels := [(c, ⟨c, [⟨b, 1⟩]⟩), (d, ⟨d, []⟩)] }, []) := by
  have hca : containsSub ['!'] a = false := by
    simp [containsSub, splitFirst_char_none '!' a ha]
  simp [execOnQuit, getUser, c9State, mkClient, hca, dictGet, dictSet,
    dictDel, pySetDiscard, pySetMem, pySetErase, heapName, pyTruthy,
    List.find?, noUser, List.getD]

/-- C9 (amended): a PART event removes the named user from that channel's
member set (and from that channel only); a QUIT event removes the user
from every channel's member set and from the name→User index; but a
Channel, once created, persists in the name→Channel index forever — no
processed line ever removes a channel key, including the local client's
own PART. -/
theorem c9_membership_and_persistence (a b c d : Str)
    (ha : '!' ∉ a) (hab : b ≠ a) (hdc : d ≠ c) :
    (execOnPart (c9State a b c d) ⟨some a, [ccPART, c], some (str "bye")⟩ =
       .ok ({ c9State a b c d with
              channels := [(c, ⟨c, [⟨b, 1⟩]⟩), (d, ⟨d, [⟨a, 0⟩]⟩)] }, []) ∧
     pySetMemName (c9State a b c d).users [⟨b, 1⟩] a = false ∧
     pySetMemName (c9State a b c d).users [⟨b, 1⟩] b = true) ∧
    (execOnQuit (c9State a b c d) ⟨some a, [ccQUIT], some (str "bye")⟩ =
       .ok ({ c9State a b c d with
              userIndex := [(b, 1)],
              channels := [(c, ⟨c, [⟨b, 1⟩]⟩), (d, ⟨d, []⟩)] }, []) ∧
     dictGet ([(b, 1)] : List (Str × Nat)) a = none) ∧
    (∀ (s : ClientState) (fuel : Nat) (line : Str) (s' : ClientState)
       (evs : List Ev),
       processLine fuel s line = .ok (s', evs) → ChanPres s s') := by
  refine ⟨⟨c9_part a b c d ha hdc, ?_, ?_⟩,
          ⟨c9_quit a b c d ha, ?_⟩,
          fun s fuel line s' evs h => chanPres_processLine h⟩
  · simp [pySetMemName, heapName, c9State, mkClient, hab, List.getD, noUser]
  · simp [pySetMemName, heapName, c9State, mkClient, List.getD, noUser]
  · simp [dictGet, List.find?, hab]

/-- Witness for `c9_membership_and_persistence` at concrete nicks and
channels. -/
theorem c9_membership_and_persistence_witness :
    execOnPart (c9State (str "alice") (str "bob") (str "#x") (str "#y"))
        ⟨some (str "alice"), [ccPART, str "#x"], some (str "bye")⟩ =
      .ok ({ c9State (str "alice") (str "bob") (str "#x") (str "#y") with
             channels := [(str "#x", ⟨str "#x", [⟨str "bob", 1⟩]⟩),
                          (str "#y", ⟨str "#y", [⟨str "alice", 0⟩]⟩)] }, []) :=
  ((c9_membership_and_persistence (str "alice") (str "bob") (str "#x")
    (str "#y") (by decide) (by decide) (by decide)).1).1

/-- C9 (counterexample to "persists until (and only until) the local client
parts"): the local client's own PART for `#x` is processed successfully,
removes the client from the member set — and `#x` is still in the
name→Channel index afterwards (no code path ever deletes a channel). -/
theorem c9_claim_counterexample :
    processLine 8 c9LocalState c9LocalLine =
      .ok (c9LocalAfter, [Ev.cmdInvoked CmdFn.onPart]) ∧
    dictGet c9LocalAfter.channels (str "#x") = some ⟨str "#x", []⟩ := by decide

/-! ## C6: theorems -/

theorem awaitStep_inv {s s' : AwaitState} {e : AwaitEv} (hi : AwaitInv s)
    (h : awaitStep s e = .ok s') : AwaitInv s' := by
  obtain ⟨h1, h2, h3⟩ := hi
  cases e with
  | line b =>
    simp only [awaitStep] at h
    split at h
    · cases hf : s.fut with
      | pending =>
        rw [hf] at h
        simp only [Except.ok.injEq] at h
        subst h
        obtain ⟨hr, hc0, hcap⟩ := h1 hf
        refine ⟨by intro hp; simp at hp, ?_, by show s.captures + 1 ≤ 1; omega⟩
        intro hnp
        left
        exact ⟨by rw [hc0], hr⟩
      | done => rw [hf] at h; simp at h
      | cancelled => rw [hf] at h; simp at h
    · simp only [Except.ok.injEq] at h
      subst h
      exact ⟨h1, h2, h3⟩
  | tick =>
    simp only [awaitStep, Except.ok.injEq] at h
    subst h
    split
    · rename_i hcb
      refine ⟨?_, ?_, h3⟩
      · intro hp
        obtain ⟨-, hc0, -⟩ := h1 hp
        omega
      · intro hnp
        right
        exact ⟨rfl, rfl⟩
    · exact ⟨h1, h2, h3⟩
  | cancel =>
    simp only [awaitStep, Except.ok.injEq] at h
    subst h
    split
    · rename_i hp
      obtain ⟨hr, hc0, hcap⟩ := h1 hp
      refine ⟨by intro hpp; simp at hpp, ?_, by show s.captures ≤ 1; omega⟩
      intro hnp
      left
      exact ⟨by rw [hc0], hr⟩
    · exact ⟨h1, h2, h3⟩

theorem awaitRun_inv : ∀ {evs : List AwaitEv} {s s' : AwaitState},
    AwaitInv s → awaitRun s evs = .ok s' → AwaitInv s' := by
  intro evs
  induction evs with
  | nil =>
    intro s s' hi h
    simp only [awaitRun, Except.ok.injEq] at h
    subst h
    exact hi
  | cons e es ih =>
    intro s s' hi h
    simp only [awaitRun] at h
    cases hs : awaitStep s e with
    | error err => rw [hs] at h; simp at h
    | ok s1 =>
      rw [hs] at h
      exact ih (awaitStep_inv hi hs) h

theorem awaitInit_inv : AwaitInv awaitInit := by
  refine ⟨fun _ => ⟨rfl, rfl, rfl⟩, fun hnp => absurd rfl hnp, ?_⟩
  simp [awaitInit]

/-- C6 (amended): `await_command`'s handler captures at most one matching
message; the handler is removed by a `call_soon` callback on the next
scheduler pass after the future resolves or is cancelled — not
synchronously — so once a pass has run, the registry no longer reacts to
matching lines (no second capture, no crash); a matching line processed
with the handler still registered after resolution resolves an
already-done future and raises, tearing the dispatch loop down (see the
counterexample). -/
theorem c6_await_deregistration :
    (∀ (evs : List AwaitEv) (s' : AwaitState),
       awaitRun awaitInit evs = .ok s' → s'.captures ≤ 1) ∧
    (∀ (evs : List AwaitEv) (s' : AwaitState),
       awaitRun awaitInit evs = .ok s' → s'.fut ≠ .pending →
       s'.pendingCbs = 0 → s'.registered = false) ∧
    (∀ (s : AwaitState) (b : Bool), s.registered = false →
       awaitStep s (.line b) = .ok s) ∧
    awaitRun awaitInit [.line true, .tick, .line true] =
      .ok ⟨false, .done, 0, 1⟩ ∧
    awaitRun awaitInit [.cancel, .tick, .line true] =
      .ok ⟨false, .cancelled, 0, 0⟩ := by
  refine ⟨?_, ?_, ?_, by decide, by decide⟩
  · intro evs s' h
    exact (awaitRun_inv awaitInit_inv h).2.2
  · intro evs s' h hnp hcb
    rcases (awaitRun_inv awaitInit_inv h).2.1 hnp with ⟨hc1, -⟩ | ⟨-, hr⟩
    · rw [hcb] at hc1
      exact absurd hc1 (by decide)
    · exact hr
  · intro s b hreg
    simp [awaitStep, hreg]

/-- Witness for `c6_await_deregistration` at concrete runs. -/
theorem c6_await_deregistration_witness :
    (⟨true, FutSt.done, 1, 1⟩ : AwaitState).captures ≤ 1 ∧
    awaitStep ⟨false, FutSt.done, 0, 1⟩ (.line true) =
      .ok ⟨false, FutSt.done, 0, 1⟩ :=
  ⟨c6_await_deregistration.1 [.line true] ⟨true, .done, 1, 1⟩ (by decide),
   c6_await_deregistration.2.2.1 ⟨false, .done, 0, 1⟩ true (by decide)⟩

/-- C6 (counterexample to the claim as stated): two matching lines read in
the same socket buffer are processed without an intervening scheduler
pass; the second one finds the helper's handler still registered and
`fut.set_result` raises `InvalidStateError`, crashing the dispatch loop —
the claim promised neither a second capture nor a crash after the first
capture. -/
theorem c6_claim_counterexample :
    awaitRun awaitInit [.line true, .line true] =
      .error PyErr.invalidState := by decide

/-! ## C8: theorems -/

theorem moduleCalls_buffers (t : RealTarget) :
    ∀ (calls acc : List (Str × Nat)),
    (∀ e ∈ calls, e.1 ∈ moduleMethods) →
    moduleCalls t ⟨false, acc⟩ calls = .ok (t, ⟨false, acc ++ calls⟩) := by
  intro calls
  induction calls with
  | nil =>
    intro acc h
    simp [moduleCalls]
  | cons e es ih =>
    intro acc h
    obtain ⟨method, fn⟩ := e
    have hm : method ∈ moduleMethods := h (method, fn) (by simp)
    simp only [moduleCalls, moduleCall, not_not_intro hm, if_neg,
      not_true_eq_false, Bool.false_eq_true, if_false]
    rw [ih (acc ++ [(method, fn)]) (fun x hx => h x (by simp [hx]))]
    simp

theorem proxyCalls_buffers (t : RealTarget) :
    ∀ (calls acc : List (Str × Nat)),
    (∀ e ∈ calls, leadEq (str "on_") e.1 = true) →
    proxyCalls t ⟨false, acc⟩ calls = .ok (t, ⟨false, acc ++ calls⟩) := by
  intro calls
  induction calls with
  | nil =>
    intro acc h
    simp [proxyCalls]
  | cons e es ih =>
    intro acc h
    obtain ⟨method, fn⟩ := e
    have hm : leadEq (str "on_") method = true := h (method, fn) (by simp)
    simp only [proxyCalls, proxyCall, Bool.false_eq_true, if_false, hm,
      not_true_eq_false]
    rw [ih (acc ++ [(method, fn)]) (fun x hx => h x (by simp [hx]))]
    simp

/-- C8: every handler-registration call on an unattached module (or an
unbound channel proxy) is buffered instead of executed; any other read
access before attachment raises `AttributeError`; attachment replays the
buffer in original call order against the real object; the bound channel
proxy then forwards calls live — but the module does NOT: after
attachment, `Module.__getattr__` evaluates the unbound names
`args`/`kwargs`, so every registration access on an attached module raises
`NameError` instead of being forwarded. -/
theorem c8_module_proxy_bug :
    (∀ (t : RealTarget) (calls : List (Str × Nat)),
       (∀ e ∈ calls, e.1 ∈ moduleMethods) →
       moduleCalls t moduleInit calls = .ok (t, ⟨false, calls⟩)) ∧
    (∀ (m : ModuleD) (method : Str), method ∉ moduleMethods →
       moduleAccess m method = .error PyErr.attributeError) ∧
    (∀ (t : RealTarget) (buf : List (Str × Nat)),
       modulePopulate t ⟨false, buf⟩ =
         ({ t with log := t.log ++ buf }, ⟨true, buf⟩)) ∧
    (∀ (t : RealTarget) (buf : List (Str × Nat)) (method : Str) (fn : Nat),
       method ∈ moduleMethods →
       moduleCall t ⟨true, buf⟩ method fn = .error PyErr.nameError) ∧
    (∀ (t : RealTarget) (calls : List (Str × Nat)),
       (∀ e ∈ calls, leadEq (str "on_") e.1 = true) →
       proxyCalls t proxyInit calls = .ok (t, ⟨false, calls⟩)) ∧
    (∀ (t : RealTarget) (buf : List (Str × Nat)),
       proxyPopulate t ⟨false, buf⟩ =
         ({ t with log := t.log ++ buf }, ⟨true, buf⟩)) ∧
    (∀ (t : RealTarget) (p : ProxyD) (method : Str) (fn : Nat),
       p.bound = true →
       proxyCall t p method fn =
         .ok ({ t with log := t.log ++ [(method, fn)] }, p)) := by
  refine ⟨?_, ?_, ?_, ?_, ?_, ?_, ?_⟩
  · intro t calls h
    simpa using moduleCalls_buffers t calls [] h
  · intro m method h
    simp [moduleAccess, h]
  · intro t buf
    rfl
  · intro t buf method fn hm
    simp only [moduleCall, not_not_intro hm]
    rw [if_neg (by simp [hm])]
    rfl
  · intro t calls h
    simpa using proxyCalls_buffers t calls [] h
  · intro t buf
    rfl
  · intro t p method fn hb
    simp [proxyCall, hb]

/-- Witness for `c8_module_proxy_bug` at concrete calls: two registrations
are buffered pre-attachment, and after attachment a registration access
raises `NameError`. -/
theorem c8_module_proxy_bug_witness :
    moduleCalls ⟨[]⟩ moduleInit [(str "on_command", 1), (str "on_message", 2)] =
      .ok (⟨[]⟩, ⟨false, [(str "on_command", 1), (str "on_message", 2)]⟩) ∧
    moduleCall ⟨[]⟩ ⟨true, []⟩ (str "on_command") 7 = .error PyErr.nameError :=
  ⟨c8_module_proxy_bug.1 ⟨[]⟩ _ (by decide),
   c8_module_proxy_bug.2.2.2.1 ⟨[]⟩ [] (str "on_command") 7 (by decide)⟩
